import Mathlib

/-!
# OPRF over ristretto255: a verification development

Shallow embedding of `oprf/oprf.go` and `oprf/keys.go`.

* The Go sources call two imported packages, `crypto/sha512` and
  `github.com/gtank/ristretto255`.  The scalar side of the latter is plain
  arithmetic modulo the group order and is written out here (`Scalar`,
  `Scalar.SetUniformBytes`, `Scalar.Invert`); the group order is proved prime.
  The element side (curve points, their encoding, the uniform-bytes map) and the
  hash are taken as a parameter `Imports` carrying the contract those packages
  document.  Theorems hold for every such `Imports`; `dlog` is one of them.
* The only input from outside is the read of 64 random bytes,
  `io.ReadFull(rand.Reader, buf[:])`; its outcome is the argument `ReadFull`.
* A Go result `(*T, error)` is a tuple of options, `nil` being `none`.
* Receivers are always fresh (`new(...)`), so the functions are written on values;
  `Store` and `BlindEvaluate.run` spell out the pointer version of `BlindEvaluate`.
* `BlindConstantTime` is called by the benchmarks only; its definition here follows
  section 4.3 of the specification, not a source file.
-/

namespace Oprf

/-! ## Bytes and arrays -/

/-- A Go `byte`. -/
abbrev Byte := Fin 256

/-- A Go `[64]byte` array; slicing it with `[:]` gives `val`. -/
structure Bytes64 where
  val : List Byte
  len : val.length = 64

/-- Little-endian value of a byte slice. -/
def leNat : List Byte → ℕ
  | [] => 0
  | b :: bs => b.val + 256 * leNat bs

/-- Little-endian encoding of `v` on `n` bytes (the value is cut to `n` bytes). -/
def leBytes : ℕ → ℕ → List Byte
  | 0, _ => []
  | n + 1, v => ⟨v % 256, Nat.mod_lt _ (by decide)⟩ :: leBytes n (v / 256)

/-! ## Scalars: integers modulo the group order -/

/-- Order of the ristretto255 group, `2^252 + 27742317777372353535851937790883648493`. -/
def groupOrder : ℕ := 2 ^ 252 + 27742317777372353535851937790883648493

/-- A `ristretto255.Scalar`: an integer modulo the group order. -/
abbrev Scalar := ZMod groupOrder

/-- Square-and-multiply exponentiation modulo `m`, on a budget of halvings. -/
def powModAux (m : ℕ) : ℕ → ℕ → ℕ → ℕ
  | 0, _, _ => 1 % m
  | fuel + 1, a, n =>
    if n = 0 then 1 % m
    else
      let h := powModAux m fuel a (n / 2)
      if n % 2 = 0 then (h * h) % m else (h * h % m * a) % m

/-- Modular exponentiation `a ^ n mod m`; the exponent itself bounds the halvings. -/
def powMod (a n m : ℕ) : ℕ := powModAux m n a n

/-- Errors the Go code can hand to its caller. -/
inductive GoError where
  /-- the error of `io.ReadFull(rand.Reader, ...)`, whatever it was -/
  | entropy (code : ℕ)
  /-- `Scalar.SetUniformBytes` on a slice that is not 64 bytes long -/
  | scalarLength
  /-- `Element.SetUniformBytes` on a slice that is not 64 bytes long -/
  | elementLength
  /-- `errors.New("failed to set uniform bytes")` -/
  | failedToSetUniformBytes
  deriving DecidableEq, Repr

/-- The method `(*Scalar).SetUniformBytes`: a 64-byte slice is read as a little-endian
integer and reduced modulo the group order; any other length is an error. -/
def Scalar.SetUniformBytes (x : List Byte) : Except GoError Scalar :=
  if x.length = 64 then .ok ((leNat x : ℕ) : Scalar) else .error .scalarLength

/-- The method `(*Scalar).Invert`: the library raises to the power `groupOrder - 2`,
which is the inverse of a nonzero scalar and zero at zero. -/
def Scalar.Invert (x : Scalar) : Scalar :=
  ((powMod (ZMod.val x) (groupOrder - 2) groupOrder : ℕ) : Scalar)

/-! ## The imported packages -/

/-- Contract of the element side of `github.com/gtank/ristretto255` and of
`crypto/sha512`, as their documentation states it: elements form a group of order
`groupOrder` on which scalars act (a module over the scalars), `Bytes` is a canonical
32-byte encoding (equal elements have equal encodings and conversely), the uniform-bytes
map is a function of its 64 input bytes, and `Sum512` returns a `[64]byte`. -/
structure Imports where
  /-- the type `ristretto255.Element` -/
  Element : Type
  [addCommGroup : AddCommGroup Element]
  [module : Module Scalar Element]
  /-- the canonical generator that `ScalarBaseMult` multiplies -/
  basePoint : Element
  /-- the map behind `(*Element).SetUniformBytes`, on a 64-byte input -/
  fromUniformBytes : Bytes64 → Element
  /-- the canonical encoding behind `(*Element).Bytes` -/
  encode : Element → List Byte
  encode_length : ∀ e, (encode e).length = 32
  encode_injective : Function.Injective encode
  /-- the function `sha512.Sum512` -/
  Sum512 : List Byte → Bytes64

attribute [instance] Imports.addCommGroup Imports.module

/-- The method `(*Element).ScalarMult`, on a fresh receiver: `s * p`. -/
def Element.ScalarMult (D : Imports) (s : Scalar) (p : D.Element) : D.Element := s • p

/-- The method `(*Element).ScalarBaseMult`, on a fresh receiver: `s * B` for the generator `B`. -/
def Element.ScalarBaseMult (D : Imports) (s : Scalar) : D.Element := s • D.basePoint

/-- The method `(*Element).SetUniformBytes`: defined on 64-byte slices, an error on any other
length. -/
def Element.SetUniformBytes (D : Imports) (b : List Byte) : Except GoError D.Element :=
  if h : b.length = 64 then .ok (D.fromUniformBytes ⟨b, h⟩) else .error .elementLength

/-- The method `(*Element).Bytes`: the canonical 32-byte encoding. -/
def Element.Bytes (D : Imports) (e : D.Element) : List Byte := D.encode e

/-- What `io.ReadFull(rand.Reader, buf[:])` did with a `[64]byte` buffer: it returned an
error, or it filled all 64 bytes. -/
inductive ReadFull where
  | failed (err : GoError)
  | filled (buf : Bytes64)

/-! ## oprf.go -/

/-- The three results of `Blind`; a `nil` pointer or a `nil` error is `none`. -/
structure BlindResult (D : Imports) where
  r : Option Scalar
  blinded : Option D.Element
  err : Option GoError

/-- `hashToGroup` maps arbitrary bytes to a group element. -/
def hashToGroup (D : Imports) (x : List Byte) : Except GoError D.Element :=
  let h := D.Sum512 x
  match Element.SetUniformBytes D h.val with
  | .error _ => .error .failedToSetUniformBytes
  | .ok elem => .ok elem

/-- `Blind`: the client blinds the input `x`; `rd` is the outcome of reading the 64 random
bytes. -/
def Blind (D : Imports) (rd : ReadFull) (x : List Byte) : BlindResult D :=
  match rd with
  | .failed err => ⟨none, none, some err⟩
  | .filled rBytes =>
    match Scalar.SetUniformBytes rBytes.val with
    | .error err => ⟨none, none, some err⟩
    | .ok r =>
      match hashToGroup D x with
      | .error err => ⟨none, none, some err⟩
      | .ok P =>
        let blinded := Element.ScalarMult D r P
        ⟨some r, some blinded, none⟩

/-- `BlindEvaluate`: the server multiplies the blinded element by its secret key. -/
def BlindEvaluate (D : Imports) (sk : Scalar) (blinded : D.Element) : D.Element :=
  Element.ScalarMult D sk blinded

/-- `Finalize`: the client unblinds the server response and hashes it. -/
def Finalize (D : Imports) (r : Scalar) (evaluated : D.Element) : List Byte :=
  let rInv := Scalar.Invert r
  let unblinded := Element.ScalarMult D rInv evaluated
  let unblindedBytes := Element.Bytes D unblinded
  let hash := D.Sum512 unblindedBytes
  hash.val.take 32

/-- What a caller of `Finalize` observes.  The Go signature returns a `[]byte` and no
`error`, and the body has no operation that can fail, so a call is always a value. -/
def Finalize.call (D : Imports) (r : Scalar) (evaluated : D.Element) :
    Except GoError (List Byte) :=
  .ok (Finalize D r evaluated)

/-! ## The constant-time blinding variant -/

/-- Modelled from the spec: `BlindConstantTime` is called by the benchmarks in
`oprf_bench_test.go` with the signature of `Blind`, but no file under `src/` defines it.
Section 4.3 gives it the contract of `Blind` in these steps: sample a scalar `r` by wide
reduction of 64 random bytes, failing when the entropy source fails; map `x` to a group
element `P` by hash-to-group, failing when the mapping fails; compute `blinded = r * P`;
return `(r, blinded)`.  Its timing, the one thing the spec says differs, is not
represented. -/
def BlindConstantTime (D : Imports) (rd : ReadFull) (x : List Byte) : BlindResult D :=
  match rd with
  | .failed err => ⟨none, none, some err⟩
  | .filled rBytes =>
    let r : Scalar := ((leNat rBytes.val % groupOrder : ℕ) : Scalar)
    match hashToGroup D x with
    | .error err => ⟨none, none, some err⟩
    | .ok P => ⟨some r, some (r • P), none⟩

/-! ## keys.go -/

/-- `KeyPair` represents server-side OPRF key material. -/
structure KeyPair (D : Imports) where
  Private : Scalar
  Public : D.Element

/-- `NewKeyPair` generates a random key pair; `rd` is the outcome of reading the 64 random
bytes.  The result is the Go pair `(*KeyPair, error)`. -/
def NewKeyPair (D : Imports) (rd : ReadFull) : Option (KeyPair D) × Option GoError :=
  match rd with
  | .failed err => (none, some err)
  | .filled buf =>
    match Scalar.SetUniformBytes buf.val with
    | .error err => (none, some err)
    | .ok sk =>
      let pk := Element.ScalarBaseMult D sk
      (some ⟨sk, pk⟩, none)

/-! ## Pointers

`BlindEvaluate` takes and returns pointers.  The store below keeps the cells behind
`*Scalar` and `*Element` pointers, so that what a call writes can be stated. -/

/-- Cells behind pointers; a pointer is an index.  An element cell holding `none` is the
zero value of `new(ristretto255.Element)`, usable only as a receiver. -/
structure Store (D : Imports) where
  scalars : List Scalar
  elements : List (Option D.Element)

/-- The allocation `new(ristretto255.Element)`: a fresh cell, and the pointer to it. -/
def Store.newElement {D : Imports} (st : Store D) : Store D × ℕ :=
  (⟨st.scalars, st.elements ++ [none]⟩, st.elements.length)

/-- The call `e.ScalarMult(s, p)` on pointers: writes `s * p` into the cell of `e` and
returns `e`; `none` stands for the panic on a dangling or uninitialised operand. -/
def Store.ScalarMult {D : Imports} (st : Store D) (e s p : ℕ) : Option (Store D × ℕ) :=
  match st.scalars[s]?, st.elements[p]? with
  | some sv, some (some pv) =>
    if e < st.elements.length then
      some (⟨st.scalars, st.elements.set e (some (Element.ScalarMult D sv pv))⟩, e)
    else none
  | _, _ => none

/-- `BlindEvaluate` on pointers: `new(ristretto255.Element).ScalarMult(sk, blinded)`. -/
def BlindEvaluate.run {D : Imports} (st : Store D) (sk blinded : ℕ) : Option (Store D × ℕ) :=
  let (st1, e) := st.newElement
  st1.ScalarMult e sk blinded


/-! ## Arithmetic -/

/-- Lucas test data for `p`: the listed numbers multiply to `p - 1`, and `a` has order
exactly `p - 1` modulo `p` as far as the listed divisors can tell. -/
def lucasCheck (p a : ℕ) (fs : List ℕ) : Bool :=
  fs.prod == p - 1 && powMod a (p - 1) p == 1 &&
    fs.all (fun q => powMod a ((p - 1) / q) p != 1)

/-! ## Arithmetic facts -/

theorem powModAux_eq (m : ℕ) :
    ∀ (fuel a n : ℕ), n < 2 ^ fuel → powModAux m fuel a n = a ^ n % m := by
  intro fuel
  induction fuel with
  | zero =>
    intro a n hn
    have : n = 0 := by simpa using hn
    subst this
    simp [powModAux]
  | succ k ih =>
    intro a n hn
    unfold powModAux
    by_cases h0 : n = 0
    · subst h0; simp
    · simp only [h0, if_false]
      have hlt : n / 2 < 2 ^ k := by
        rw [Nat.div_lt_iff_lt_mul (by norm_num)]
        calc n < 2 ^ (k + 1) := hn
          _ = 2 ^ k * 2 := by ring
      rw [ih a (n / 2) hlt]
      have hn2 : n = 2 * (n / 2) + n % 2 := (Nat.div_add_mod n 2).symm
      by_cases hpar : n % 2 = 0
      · simp only [hpar, if_true]
        conv_rhs => rw [hn2, hpar, add_zero, two_mul, pow_add]
        exact (Nat.mul_mod _ _ _).symm
      · simp only [hpar, if_false]
        have h1 : n % 2 = 1 := by omega
        conv_rhs => rw [hn2, h1, pow_add, two_mul, pow_add, pow_one]
        rw [← Nat.mul_mod (a ^ (n / 2)) (a ^ (n / 2)) m,
          Nat.mul_mod (a ^ (n / 2) * a ^ (n / 2)) a m]
        conv_lhs => rw [Nat.mul_mod, Nat.mod_mod]

theorem powMod_eq (a n m : ℕ) : powMod a n m = a ^ n % m :=
  powModAux_eq m _ a n (Nat.lt_two_pow n)

theorem zmod_pow_eq_one_iff (p a n : ℕ) (hp : 1 < p) :
    ((a : ZMod p) ^ n = 1) ↔ powMod a n p = 1 := by
  rw [powMod_eq]
  have h := ZMod.natCast_eq_natCast_iff' (a ^ n) 1 p
  rw [Nat.cast_pow, Nat.cast_one, Nat.mod_eq_of_lt hp] at h
  exact h

/-- Lucas primality test, in checkable form. -/
theorem prime_of_lucasCheck (p a : ℕ) (fs : List ℕ) (hp : 1 < p)
    (hfs : ∀ q ∈ fs, Nat.Prime q) (h : lucasCheck p a fs = true) : Nat.Prime p := by
  simp only [lucasCheck, Bool.and_eq_true, beq_iff_eq, List.all_eq_true, bne_iff_ne, ne_eq] at h
  obtain ⟨⟨hprod, hone⟩, hall⟩ := h
  refine lucas_primality p (a : ZMod p) ((zmod_pow_eq_one_iff p a _ hp).2 hone) ?_
  intro q hq hdvd
  rw [← hprod] at hdvd
  obtain ⟨r, hr, hqr⟩ := (Prime.dvd_prod_iff (Nat.prime_iff.1 hq)).1 hdvd
  have : q = r := (Nat.prime_dvd_prime_iff_eq hq (hfs r hr)).1 hqr
  subst this
  exact fun hpow => hall q hr ((zmod_pow_eq_one_iff p a _ hp).1 hpow)

/-! ### Primality certificate of the group order -/

theorem prime_2 : Nat.Prime 2 := by norm_num

theorem prime_3 : Nat.Prime 3 := by norm_num

theorem prime_11 : Nat.Prime 11 := by norm_num

theorem prime_23 : Nat.Prime 23 := by norm_num

theorem prime_34123 : Nat.Prime 34123 := by norm_num

theorem prime_409477 : Nat.Prime 409477 :=
  prime_of_lucasCheck _ 2 [2, 2, 3, 34123] (by decide)
    (by simp only [List.forall_mem_cons, List.not_mem_nil, false_implies, implies_true, and_true]
        exact ⟨prime_2, prime_2, prime_3, prime_34123⟩)
    (by decide!)

theorem prime_14741173 : Nat.Prime 14741173 :=
  prime_of_lucasCheck _ 2 [2, 2, 3, 3, 409477] (by decide)
    (by simp only [List.forall_mem_cons, List.not_mem_nil, false_implies, implies_true, and_true]
        exact ⟨prime_2, prime_2, prime_3, prime_3, prime_409477⟩)
    (by decide!)

theorem prime_58964693 : Nat.Prime 58964693 :=
  prime_of_lucasCheck _ 2 [2, 2, 14741173] (by decide)
    (by simp only [List.forall_mem_cons, List.not_mem_nil, false_implies, implies_true, and_true]
        exact ⟨prime_2, prime_2, prime_14741173⟩)
    (by decide!)

theorem prime_30703 : Nat.Prime 30703 := by norm_num

theorem prime_82163 : Nat.Prime 82163 := by norm_num

theorem prime_22111 : Nat.Prime 22111 := by norm_num

theorem prime_132667 : Nat.Prime 132667 :=
  prime_of_lucasCheck _ 5 [2, 3, 22111] (by decide)
    (by simp only [List.forall_mem_cons, List.not_mem_nil, false_implies, implies_true, and_true]
        exact ⟨prime_2, prime_3, prime_22111⟩)
    (by decide!)

theorem prime_17231 : Nat.Prime 17231 := by norm_num

theorem prime_137849 : Nat.Prime 137849 :=
  prime_of_lucasCheck _ 3 [2, 2, 2, 17231] (by decide)
    (by simp only [List.forall_mem_cons, List.not_mem_nil, false_implies, implies_true, and_true]
        exact ⟨prime_2, prime_2, prime_2, prime_17231⟩)
    (by decide!)

theorem prime_3044861653679985063343 : Nat.Prime 3044861653679985063343 :=
  prime_of_lucasCheck _ 5 [2, 3, 11, 30703, 82163, 132667, 137849] (by decide)
    (by simp only [List.forall_mem_cons, List.not_mem_nil, false_implies, implies_true, and_true]
        exact ⟨prime_2, prime_3, prime_11, prime_30703, prime_82163, prime_132667, prime_137849⟩)
    (by decide!)

theorem prime_198211423230930754013084525763697 : Nat.Prime 198211423230930754013084525763697 :=
  prime_of_lucasCheck _ 5 [2, 2, 2, 2, 3, 23, 58964693, 3044861653679985063343] (by decide)
    (by simp only [List.forall_mem_cons, List.not_mem_nil, false_implies, implies_true, and_true]
        exact ⟨prime_2, prime_2, prime_2, prime_2, prime_3, prime_23, prime_58964693, prime_3044861653679985063343⟩)
    (by decide!)

theorem prime_7 : Nat.Prime 7 := by norm_num

theorem prime_269 : Nat.Prime 269 := by norm_num

theorem prime_5 : Nat.Prime 5 := by norm_num

theorem prime_73 : Nat.Prime 73 := by norm_num

theorem prime_307 : Nat.Prime 307 := by norm_num

theorem prime_5879 : Nat.Prime 5879 := by norm_num

theorem prime_292386187 : Nat.Prime 292386187 :=
  prime_of_lucasCheck _ 2 [2, 3, 3, 3, 3, 307, 5879] (by decide)
    (by simp only [List.forall_mem_cons, List.not_mem_nil, false_implies, implies_true, and_true]
        exact ⟨prime_2, prime_3, prime_3, prime_3, prime_3, prime_307, prime_5879⟩)
    (by decide!)

theorem prime_213441916511 : Nat.Prime 213441916511 :=
  prime_of_lucasCheck _ 13 [2, 5, 73, 292386187] (by decide)
    (by simp only [List.forall_mem_cons, List.not_mem_nil, false_implies, implies_true, and_true]
        exact ⟨prime_2, prime_5, prime_73, prime_292386187⟩)
    (by decide!)

theorem prime_1361 : Nat.Prime 1361 := by norm_num

theorem prime_2851 : Nat.Prime 2851 := by norm_num

theorem prime_41 : Nat.Prime 41 := by norm_num

theorem prime_43 : Nat.Prime 43 := by norm_num

theorem prime_3797 : Nat.Prime 3797 := by norm_num

theorem prime_531581 : Nat.Prime 531581 :=
  prime_of_lucasCheck _ 2 [2, 2, 5, 7, 3797] (by decide)
    (by simp only [List.forall_mem_cons, List.not_mem_nil, false_implies, implies_true, and_true]
        exact ⟨prime_2, prime_2, prime_5, prime_7, prime_3797⟩)
    (by decide!)

theorem prime_2551 : Nat.Prime 2551 := by norm_num

theorem prime_1224481 : Nat.Prime 1224481 :=
  prime_of_lucasCheck _ 13 [2, 2, 2, 2, 2, 3, 5, 2551] (by decide)
    (by simp only [List.forall_mem_cons, List.not_mem_nil, false_implies, implies_true, and_true]
        exact ⟨prime_2, prime_2, prime_2, prime_2, prime_2, prime_3, prime_5, prime_2551⟩)
    (by decide!)

theorem prime_1257559732178653 : Nat.Prime 1257559732178653 :=
  prime_of_lucasCheck _ 2 [2, 2, 3, 7, 23, 531581, 1224481] (by decide)
    (by simp only [List.forall_mem_cons, List.not_mem_nil, false_implies, implies_true, and_true]
        exact ⟨prime_2, prime_2, prime_3, prime_7, prime_23, prime_531581, prime_1224481⟩)
    (by decide!)

theorem prime_4434155615661930479 : Nat.Prime 4434155615661930479 :=
  prime_of_lucasCheck _ 17 [2, 41, 43, 1257559732178653] (by decide)
    (by simp only [List.forall_mem_cons, List.not_mem_nil, false_implies, implies_true, and_true]
        exact ⟨prime_2, prime_41, prime_43, prime_1257559732178653⟩)
    (by decide!)

theorem prime_172054593956031949258510691 : Nat.Prime 172054593956031949258510691 :=
  prime_of_lucasCheck _ 2 [2, 5, 1361, 2851, 4434155615661930479] (by decide)
    (by simp only [List.forall_mem_cons, List.not_mem_nil, false_implies, implies_true, and_true]
        exact ⟨prime_2, prime_5, prime_1361, prime_2851, prime_4434155615661930479⟩)
    (by decide!)

theorem prime_19757330305831588566944191468367130476339 : Nat.Prime 19757330305831588566944191468367130476339 :=
  prime_of_lucasCheck _ 2 [2, 269, 213441916511, 172054593956031949258510691] (by decide)
    (by simp only [List.forall_mem_cons, List.not_mem_nil, false_implies, implies_true, and_true]
        exact ⟨prime_2, prime_269, prime_213441916511, prime_172054593956031949258510691⟩)
    (by decide!)

theorem prime_276602624281642239937218680557139826668747 : Nat.Prime 276602624281642239937218680557139826668747 :=
  prime_of_lucasCheck _ 2 [2, 7, 19757330305831588566944191468367130476339] (by decide)
    (by simp only [List.forall_mem_cons, List.not_mem_nil, false_implies, implies_true, and_true]
        exact ⟨prime_2, prime_7, prime_19757330305831588566944191468367130476339⟩)
    (by decide!)

/-- The group order is prime (Lucas test with base 2, certificates for the prime factors of
the order minus one above). -/
theorem groupOrder_prime : Nat.Prime groupOrder :=
  prime_of_lucasCheck _ 2 [2, 2, 3, 11, 198211423230930754013084525763697, 276602624281642239937218680557139826668747] (by decide)
    (by simp only [List.forall_mem_cons, List.not_mem_nil, false_implies, implies_true, and_true]
        exact ⟨prime_2, prime_2, prime_3, prime_11, prime_198211423230930754013084525763697, prime_276602624281642239937218680557139826668747⟩)
    (by decide!)

/-! ## Scalar facts -/

theorem groupOrder_pos : 0 < groupOrder := groupOrder_prime.pos

theorem groupOrder_lt : groupOrder < 256 ^ 32 := by decide

theorem scalar_one_ne_zero : (1 : Scalar) ≠ 0 := by
  haveI : Fact (Nat.Prime groupOrder) := ⟨groupOrder_prime⟩
  exact one_ne_zero

theorem scalar_two_ne_zero : (2 : Scalar) ≠ 0 := by
  intro h
  have h2 : ((2 : ℕ) : Scalar) = 0 := by exact_mod_cast h
  have hd : groupOrder ∣ 2 := (ZMod.natCast_zmod_eq_zero_iff_dvd 2 groupOrder).1 h2
  have hle : groupOrder ≤ 2 := Nat.le_of_dvd (by decide) hd
  exact absurd hle (by decide)

theorem scalar_one_ne_two : (1 : Scalar) ≠ 2 := by
  intro h
  apply scalar_one_ne_zero
  have h3 : (2 : Scalar) - 1 = 1 := by ring
  rw [← h3, ← h, sub_self]

/-- What the library computes in `Invert` is the power `groupOrder - 2`. -/
theorem Scalar.Invert_eq_pow (x : Scalar) : Scalar.Invert x = x ^ (groupOrder - 2) := by
  haveI : NeZero groupOrder := ⟨groupOrder_pos.ne'⟩
  unfold Scalar.Invert
  rw [powMod_eq, ZMod.natCast_mod, Nat.cast_pow, ZMod.natCast_zmod_val]

/-- `Invert` inverts every nonzero scalar. -/
theorem Scalar.Invert_mul (x : Scalar) (hx : x ≠ 0) : Scalar.Invert x * x = 1 := by
  haveI : Fact (Nat.Prime groupOrder) := ⟨groupOrder_prime⟩
  rw [Scalar.Invert_eq_pow, ← pow_succ]
  have h : groupOrder - 2 + 1 = groupOrder - 1 := by
    have := groupOrder_prime.two_le
    omega
  rw [h]
  exact ZMod.pow_card_sub_one_eq_one hx

/-- `Invert` sends zero to zero. -/
theorem Scalar.Invert_zero : Scalar.Invert 0 = 0 := by
  rw [Scalar.Invert_eq_pow]
  exact zero_pow (by decide)

/-- A scalar read from bytes is zero exactly when the bytes encode a multiple of the order. -/
theorem Scalar.natCast_eq_zero_iff (n : ℕ) : ((n : ℕ) : Scalar) = 0 ↔ groupOrder ∣ n :=
  ZMod.natCast_zmod_eq_zero_iff_dvd n groupOrder

theorem scalarSetUniformBytes_ok (b : Bytes64) :
    Scalar.SetUniformBytes b.val = .ok ((leNat b.val : ℕ) : Scalar) := by
  simp [Scalar.SetUniformBytes, b.len]

/-! ## Byte encodings -/

theorem leBytes_length (n v : ℕ) : (leBytes n v).length = n := by
  induction n generalizing v with
  | zero => rfl
  | succ k ih => simp [leBytes, ih]

theorem leNat_leBytes (n v : ℕ) : leNat (leBytes n v) = v % 256 ^ n := by
  induction n generalizing v with
  | zero => simp [leBytes, leNat, Nat.mod_one]
  | succ k ih =>
    simp only [leBytes, leNat, ih]
    rw [pow_succ, mul_comm (256 ^ k) 256, Nat.mod_mul]

/-! ## A concrete instance of the imported packages

Every group of prime order `groupOrder` is the additive group of scalars up to renaming
its elements, so the scalars themselves, encoded little-endian on 32 bytes, meet the
element contract.  The digest below only has the type of `Sum512`.  The instance is what
the general theorems are applied to on concrete inputs. -/

/-- A 64-byte digest of the right type: the little-endian value of the input, plus its
length, plus one, written on 64 bytes. -/
def sum64 (x : List Byte) : Bytes64 :=
  ⟨leBytes 64 (leNat x + x.length + 1), leBytes_length 64 _⟩

theorem leBytes32_val_injective :
    Function.Injective (fun e : Scalar => leBytes 32 (ZMod.val e)) := by
  haveI : NeZero groupOrder := ⟨groupOrder_pos.ne'⟩
  intro a b hab
  have h := congrArg leNat hab
  simp only [leNat_leBytes] at h
  have ha : ZMod.val a < 256 ^ 32 := lt_trans (ZMod.val_lt a) groupOrder_lt
  have hb : ZMod.val b < 256 ^ 32 := lt_trans (ZMod.val_lt b) groupOrder_lt
  rw [Nat.mod_eq_of_lt ha, Nat.mod_eq_of_lt hb] at h
  exact ZMod.val_injective groupOrder h

/-- The scalars as the element group: generator `1`, little-endian encoding. -/
def dlog : Imports where
  Element := Scalar
  basePoint := 1
  fromUniformBytes := fun b => ((leNat b.val : ℕ) : Scalar)
  encode := fun e => leBytes 32 (ZMod.val e)
  encode_length := fun _ => leBytes_length 32 _
  encode_injective := leBytes32_val_injective
  Sum512 := sum64

/-- Sixty-four zero bytes. -/
def zeros64 : Bytes64 := ⟨List.replicate 64 0, by simp⟩

/-- The 64-byte little-endian encoding of `n`. -/
def bytes64Of (n : ℕ) : Bytes64 := ⟨leBytes 64 n, leBytes_length 64 n⟩

/-- The bytes of `"password123"`, the input of `TestOPRFTwoDifferentKeys`. -/
def password123 : List Byte := [112, 97, 115, 115, 119, 111, 114, 100, 49, 50, 51]

/-- The 64 random bytes `1, 0, ..., 0`, which reduce to the scalar one. -/
def oneBytes : Bytes64 := ⟨1 :: List.replicate 63 0, by simp⟩

theorem leNat_replicate_zero (n : ℕ) : leNat (List.replicate n 0) = 0 := by
  induction n with
  | zero => rfl
  | succ k ih => simp [List.replicate_succ, leNat, ih]

theorem leNat_oneBytes : leNat oneBytes.val = 1 := by
  simp [oneBytes, leNat, leNat_replicate_zero]

theorem leNat_zeros64 : leNat zeros64.val = 0 := leNat_replicate_zero 64

theorem leNat_bytes64Of (n : ℕ) (h : n < 256 ^ 64) : leNat (bytes64Of n).val = n := by
  simp only [bytes64Of, leNat_leBytes]
  exact Nat.mod_eq_of_lt h

/-- In the concrete instance the empty input hashes to the generator. -/
theorem dlog_hash_nil : dlog.fromUniformBytes (dlog.Sum512 []) = (1 : Scalar) := by
  simp [dlog, sum64, leNat_leBytes, leNat]

/-! ## Facts about the imported operations -/

/-- The length check of the scalar reduction is live: a short slice is an error. -/
theorem scalarSetUniformBytes_short : Scalar.SetUniformBytes [1, 2] = .error .scalarLength := by
  simp [Scalar.SetUniformBytes]

/-- The length check of the uniform-bytes map is live: a short slice is an error. -/
theorem elementSetUniformBytes_short (D : Imports) :
    Element.SetUniformBytes D [1, 2] = .error .elementLength := by
  simp [Element.SetUniformBytes]

theorem elementSetUniformBytes_ok (D : Imports) (b : Bytes64) :
    Element.SetUniformBytes D b.val = .ok (D.fromUniformBytes b) := by
  simp [Element.SetUniformBytes, b.len]

theorem hashToGroup_ok (D : Imports) (x : List Byte) :
    hashToGroup D x = .ok (D.fromUniformBytes (D.Sum512 x)) := by
  simp [hashToGroup, elementSetUniformBytes_ok]

theorem Blind_filled (D : Imports) (b : Bytes64) (x : List Byte) :
    Blind D (.filled b) x =
      ⟨some ((leNat b.val : ℕ) : Scalar),
        some (Element.ScalarMult D ((leNat b.val : ℕ) : Scalar)
          (D.fromUniformBytes (D.Sum512 x))), none⟩ := by
  simp [Blind, scalarSetUniformBytes_ok, hashToGroup_ok]

/-- A nonzero scalar kills no element but the identity. -/
theorem smul_eq_zero_of_ne_zero (D : Imports) (s : Scalar) (P : D.Element) (hs : s ≠ 0)
    (h : s • P = 0) : P = 0 := by
  have h1 : (Scalar.Invert s * s) • P = 0 := by rw [mul_smul, h, smul_zero]
  rwa [Scalar.Invert_mul s hs, one_smul] at h1

/-- The blinding cancels: unblinding the evaluation of `r * P` gives `sk * P`. -/
theorem unblind_evaluated (D : Imports) (r sk : Scalar) (P : D.Element) (hr : r ≠ 0) :
    Element.ScalarMult D (Scalar.Invert r) (BlindEvaluate D sk (Element.ScalarMult D r P)) =
      Element.ScalarMult D sk P := by
  simp only [Element.ScalarMult, BlindEvaluate]
  rw [← mul_smul, ← mul_smul, mul_assoc, mul_comm sk r, ← mul_assoc,
    Scalar.Invert_mul r hr, one_mul]

/-- A successful `Blind` read its 64 bytes and returned the reduced scalar and `r * P`. -/
theorem Blind_success (D : Imports) (rd : ReadFull) (x : List Byte) (r : Scalar)
    (B : D.Element) (h : Blind D rd x = ⟨some r, some B, none⟩) :
    ∃ b, rd = .filled b ∧ r = ((leNat b.val : ℕ) : Scalar) ∧
      B = Element.ScalarMult D r (D.fromUniformBytes (D.Sum512 x)) := by
  cases rd with
  | failed e => simp [Blind] at h
  | filled b =>
    rw [Blind_filled] at h
    simp only [BlindResult.mk.injEq, Option.some.injEq, and_true] at h
    obtain ⟨h1, h2⟩ := h
    exact ⟨b, rfl, h1.symm, by rw [← h2, ← h1]⟩

/-! ## The claims -/

/-- Claim C1, protocol correctness: when `Blind` succeeds on `x` with a nonzero blinding
factor `r` and blinded element `B`, hashing to the group succeeds with some `P`, and
`Finalize r (BlindEvaluate sk B)` is the first 32 bytes of the digest of the encoding of
`sk * P`, the value computed directly without blinding. -/
theorem protocol_correctness (D : Imports) (x : List Byte) (sk : Scalar) (rd : ReadFull)
    (r : Scalar) (B : D.Element) (hBlind : Blind D rd x = ⟨some r, some B, none⟩)
    (hr : r ≠ 0) :
    ∃ P, hashToGroup D x = .ok P ∧
      Finalize D r (BlindEvaluate D sk B) =
        (D.Sum512 (Element.Bytes D (Element.ScalarMult D sk P))).val.take 32 := by
  obtain ⟨b, -, -, hB⟩ := Blind_success D rd x r B hBlind
  refine ⟨_, hashToGroup_ok D x, ?_⟩
  rw [hB]
  simp only [Finalize]
  rw [unblind_evaluated D r sk _ hr]

/-- Claim C1 applied: the run of `Blind` on the empty input with random bytes
`1, 0, ..., 0` has blinding factor one, and the key `5`. -/
theorem protocol_correctness_witness :
    ∃ P, hashToGroup dlog [] = .ok P ∧
      Finalize dlog 1 (BlindEvaluate dlog 5
          (Element.ScalarMult dlog 1 (dlog.fromUniformBytes (dlog.Sum512 [])))) =
        (dlog.Sum512 (Element.Bytes dlog (Element.ScalarMult dlog 5 P))).val.take 32 :=
  protocol_correctness dlog [] 5 (.filled oneBytes) 1 _
    (by rw [Blind_filled, leNat_oneBytes, Nat.cast_one]) scalar_one_ne_zero

/-- Claim C2, independence from the blinding factor: hashing `x` to the group succeeds
with some `P`, and for any two nonzero blinding factors the finalized outputs of the
evaluations of `r1 * P` and `r2 * P` under the same key are equal. -/
theorem blinding_independence (D : Imports) (x : List Byte) (sk r1 r2 : Scalar)
    (h1 : r1 ≠ 0) (h2 : r2 ≠ 0) :
    ∃ P, hashToGroup D x = .ok P ∧
      Finalize D r1 (BlindEvaluate D sk (Element.ScalarMult D r1 P)) =
        Finalize D r2 (BlindEvaluate D sk (Element.ScalarMult D r2 P)) := by
  refine ⟨_, hashToGroup_ok D x, ?_⟩
  simp only [Finalize]
  rw [unblind_evaluated D r1 sk _ h1, unblind_evaluated D r2 sk _ h2]

/-- Claim C2 applied: input `[7]`, key `5`, blinding factors one and two. -/
theorem blinding_independence_witness :
    ∃ P, hashToGroup dlog [7] = .ok P ∧
      Finalize dlog 1 (BlindEvaluate dlog 5 (Element.ScalarMult dlog 1 P)) =
        Finalize dlog 2 (BlindEvaluate dlog 5 (Element.ScalarMult dlog 2 P)) :=
  blinding_independence dlog [7] 5 1 2 scalar_one_ne_zero scalar_two_ne_zero

/-- With the zero blinding factor the unblinded element is the identity. -/
theorem unblind_zero (D : Imports) (E : D.Element) :
    Element.ScalarMult D (Scalar.Invert 0) E = 0 := by
  simp [Element.ScalarMult, Scalar.Invert_zero]

/-- Claim C3, key separation, evaluated where the code breaks it: when the 64 random bytes
are all zero, `Blind` succeeds on the input `"password123"` of `TestOPRFTwoDifferentKeys`
with blinding factor zero and the identity as blinded element, and the two different keys
`1` and `2` finalize to the same output, which the test asserts cannot happen. -/
theorem key_separation_fails_at_zero_blinding :
    Blind dlog (.filled zeros64) password123 = ⟨some 0, some 0, none⟩ ∧ (1 : Scalar) ≠ 2 ∧
      Finalize dlog 0 (BlindEvaluate dlog 1 (0 : dlog.Element)) =
        Finalize dlog 0 (BlindEvaluate dlog 2 (0 : dlog.Element)) := by
  refine ⟨?_, scalar_one_ne_two, ?_⟩
  · rw [Blind_filled, leNat_zeros64, Nat.cast_zero]
    simp [Element.ScalarMult]
  · simp only [Finalize, unblind_zero]

/-- Claim C4, output width: `Finalize` returns exactly 32 bytes for every scalar and
every group element. -/
theorem Finalize_length (D : Imports) (r : Scalar) (E : D.Element) :
    (Finalize D r E).length = 32 := by
  simp [Finalize, List.length_take, (D.Sum512 _).len]

/-- Claim C5 fails as stated: called with the zero scalar and the generator, `Finalize`
returns a value, which no error equals. -/
theorem Finalize_zero_not_rejected :
    Finalize.call dlog 0 dlog.basePoint = .ok (Finalize dlog 0 dlog.basePoint) ∧
      ¬ ∃ e, Finalize.call dlog 0 dlog.basePoint = .error e := by
  refine ⟨rfl, ?_⟩
  rintro ⟨e, he⟩
  simp [Finalize.call] at he

/-- Claim C5 as amended: `Finalize` has no failure path; called with the zero scalar it
returns, for every group element, an output of 32 bytes and no error. -/
theorem Finalize_zero_returns (D : Imports) (E : D.Element) :
    ∃ out, Finalize.call D 0 E = .ok out ∧ out.length = 32 :=
  ⟨Finalize D 0 E, rfl, by simp [Finalize, List.length_take, (D.Sum512 _).len]⟩

/-- Claim C6 fails as stated: when the 64 random bytes are the little-endian encoding of
the group order, `Blind` succeeds on the empty input and the blinding scalar is zero. -/
theorem Blind_zero_blinding_factor :
    Blind dlog (.filled (bytes64Of groupOrder)) [] = ⟨some 0, some 0, none⟩ := by
  rw [Blind_filled, leNat_bytes64Of groupOrder (by decide), ZMod.natCast_self]
  simp [Element.ScalarMult]

/-- Claim C6 as amended: whenever `Blind` succeeds it has read 64 bytes, and the blinding
scalar it returns is nonzero exactly when those bytes, read as a little-endian integer,
are not a multiple of the group order. -/
theorem Blind_blinding_factor_ne_zero_iff (D : Imports) (rd : ReadFull) (x : List Byte)
    (r : Scalar) (B : D.Element) (hBlind : Blind D rd x = ⟨some r, some B, none⟩) :
    ∃ b, rd = .filled b ∧ (r ≠ 0 ↔ ¬ groupOrder ∣ leNat b.val) := by
  obtain ⟨b, hrd, hr, -⟩ := Blind_success D rd x r B hBlind
  refine ⟨b, hrd, ?_⟩
  rw [hr, Ne, Scalar.natCast_eq_zero_iff]

/-- Claim C6 as amended, applied: the run of `Blind` on the empty input with random
bytes `1, 0, ..., 0`. -/
theorem Blind_blinding_factor_ne_zero_iff_witness :
    ∃ b, ReadFull.filled oneBytes = .filled b ∧
      ((1 : Scalar) ≠ 0 ↔ ¬ groupOrder ∣ leNat b.val) :=
  Blind_blinding_factor_ne_zero_iff dlog (.filled oneBytes) [] 1
    (Element.ScalarMult dlog 1 (dlog.fromUniformBytes (dlog.Sum512 [])))
    (by rw [Blind_filled, leNat_oneBytes, Nat.cast_one])

/-- Claim C7, key pair invariant: whenever `NewKeyPair` returns no error it has read 64
bytes and returns a key pair whose private scalar is the little-endian value of those
bytes reduced modulo the group order, and whose public element is the private scalar
times the base point. -/
theorem NewKeyPair_invariant (D : Imports) (rd : ReadFull)
    (h : (NewKeyPair D rd).2 = none) :
    ∃ buf kp, rd = .filled buf ∧ (NewKeyPair D rd).1 = some kp ∧
      kp.Private = ((leNat buf.val : ℕ) : Scalar) ∧
      ZMod.val kp.Private = leNat buf.val % groupOrder ∧
      kp.Public = kp.Private • D.basePoint := by
  cases rd with
  | failed e => simp [NewKeyPair] at h
  | filled buf =>
    refine ⟨buf, ⟨((leNat buf.val : ℕ) : Scalar),
      Element.ScalarBaseMult D ((leNat buf.val : ℕ) : Scalar)⟩, rfl, ?_, rfl, ?_, rfl⟩
    · simp [NewKeyPair, scalarSetUniformBytes_ok]
    · exact ZMod.val_natCast _

/-- Claim C7 applied: key generation from the random bytes `1, 0, ..., 0`. -/
theorem NewKeyPair_invariant_witness :
    ∃ buf kp, ReadFull.filled oneBytes = .filled buf ∧
      (NewKeyPair dlog (.filled oneBytes)).1 = some kp ∧
      kp.Private = ((leNat buf.val : ℕ) : Scalar) ∧
      ZMod.val kp.Private = leNat buf.val % groupOrder ∧
      kp.Public = kp.Private • dlog.basePoint :=
  NewKeyPair_invariant dlog (.filled oneBytes)
    (by simp [NewKeyPair, scalarSetUniformBytes_ok])

/-- Claim C8, `Blind` fails only on entropy failure: for every input, `Blind` returns an
error exactly when the read of the 64 random bytes failed, and then returns neither a
scalar nor an element; the scalar reduction of a `[64]byte` and the hashing of any input
to the group never take their error branch, both being handed 64 bytes. -/
theorem Blind_error_iff (D : Imports) (rd : ReadFull) (x : List Byte) :
    ((Blind D rd x).err ≠ none ↔ ∃ e, rd = .failed e) ∧
      ((Blind D rd x).err ≠ none → (Blind D rd x).r = none ∧ (Blind D rd x).blinded = none) ∧
      (∀ b : Bytes64, b.val.length = 64 ∧ ∃ r, Scalar.SetUniformBytes b.val = .ok r) ∧
      ((D.Sum512 x).val.length = 64 ∧ ∃ P, hashToGroup D x = .ok P) := by
  refine ⟨?_, ?_, fun b => ⟨b.len, _, scalarSetUniformBytes_ok b⟩,
    (D.Sum512 x).len, _, hashToGroup_ok D x⟩
  · cases rd with
    | failed e => simp [Blind]
    | filled b => simp [Blind_filled]
  · cases rd with
    | failed e => simp [Blind]
    | filled b => simp [Blind_filled]

/-- Claim C9, the result of `Blind`: for every input and every 64 random bytes read,
hashing to the group succeeds with some `P` and `Blind` returns, without error, the scalar
`r` that is the little-endian value of the bytes reduced modulo the group order, and the
element `r * P`. -/
theorem Blind_result (D : Imports) (x : List Byte) (b : Bytes64) :
    ∃ r P, hashToGroup D x = .ok P ∧ ZMod.val r = leNat b.val % groupOrder ∧
      Blind D (.filled b) x = ⟨some r, some (r • P), none⟩ :=
  ⟨((leNat b.val : ℕ) : Scalar), _, hashToGroup_ok D x, ZMod.val_natCast _,
    Blind_filled D b x⟩

/-- What `BlindEvaluate` on pointers does to the store: one new cell holding `sk * blinded`. -/
theorem BlindEvaluate_run_eq (D : Imports) (sk : Scalar) (blinded : D.Element)
    (st : Store D) (psk pb : ℕ) (hsk : st.scalars[psk]? = some sk)
    (hb : st.elements[pb]? = some (some blinded)) :
    BlindEvaluate.run st psk pb =
      some (⟨st.scalars, st.elements ++ [some (sk • blinded)]⟩, st.elements.length) := by
  have hlt : pb < st.elements.length := by
    by_contra hge
    rw [List.getElem?_eq_none (not_lt.1 hge)] at hb
    cases hb
  have hb1 : (st.elements ++ [none])[pb]? = some (some blinded) := by
    rw [List.getElem?_append_left hlt, hb]
  simp [BlindEvaluate.run, Store.newElement, Store.ScalarMult, hsk, hb1, Element.ScalarMult,
    List.set_append]

theorem getElem?_append_of_some {α : Type} (l : List α) (v a : α) (i : ℕ)
    (h : l[i]? = some a) : (l ++ [v])[i]? = some a := by
  have hlt : i < l.length := by
    by_contra hge
    rw [List.getElem?_eq_none (not_lt.1 hge)] at h
    cases h
  rw [List.getElem?_append_left hlt, h]

theorem getElem?_append_length {α : Type} (l : List α) (v : α) :
    (l ++ [v])[l.length]? = some v := by
  simp

/-- Claim C10, `BlindEvaluate` is a total pure function: it returns `sk * blinded`; run on
pointers to a scalar and an initialised element it does not fail, allocates one new cell
holding `sk * blinded`, leaves every existing cell, so `sk` and `blinded`, as it was, and
a second call with the same arguments returns a cell holding the same element. -/
theorem BlindEvaluate_total_pure (D : Imports) (sk : Scalar) (blinded : D.Element)
    (st : Store D) (psk pb : ℕ) (hsk : st.scalars[psk]? = some sk)
    (hb : st.elements[pb]? = some (some blinded)) :
    BlindEvaluate D sk blinded = sk • blinded ∧
      ∃ st1 e1, BlindEvaluate.run st psk pb = some (st1, e1) ∧
        st1.elements[e1]? = some (some (sk • blinded)) ∧
        st1.scalars = st.scalars ∧ st1.elements.take st.elements.length = st.elements ∧
        st1.scalars[psk]? = some sk ∧ st1.elements[pb]? = some (some blinded) ∧
        ∃ st2 e2, BlindEvaluate.run st1 psk pb = some (st2, e2) ∧
          st2.elements[e2]? = some (some (sk • blinded)) ∧
          st2.scalars[psk]? = some sk ∧ st2.elements[pb]? = some (some blinded) := by
  have hb1 := getElem?_append_of_some st.elements (some (sk • blinded)) _ pb hb
  refine ⟨rfl, _, _, BlindEvaluate_run_eq D sk blinded st psk pb hsk hb, by simp, rfl,
    by simp, hsk, hb1, _, _,
    BlindEvaluate_run_eq D sk blinded ⟨st.scalars, st.elements ++ [some (sk • blinded)]⟩
      psk pb hsk hb1, ?_, hsk, ?_⟩
  · exact getElem?_append_length _ _
  · exact getElem?_append_of_some _ _ _ pb hb1

/-- Claim C10 applied: a store with the key `5` and the generator as blinded element. -/
theorem BlindEvaluate_total_pure_witness :
    BlindEvaluate dlog 5 (1 : Scalar) = (5 : Scalar) • (1 : Scalar) ∧
      ∃ st1 e1, BlindEvaluate.run (⟨[5], [some (1 : Scalar)]⟩ : Store dlog) 0 0 =
          some (st1, e1) ∧
        st1.elements[e1]? = some (some ((5 : Scalar) • (1 : Scalar))) ∧
        st1.scalars = [5] ∧ st1.elements.take 1 = [some (1 : Scalar)] ∧
        st1.scalars[0]? = some 5 ∧ st1.elements[0]? = some (some (1 : Scalar)) ∧
        ∃ st2 e2, BlindEvaluate.run st1 0 0 = some (st2, e2) ∧
          st2.elements[e2]? = some (some ((5 : Scalar) • (1 : Scalar))) ∧
          st2.scalars[0]? = some 5 ∧ st2.elements[0]? = some (some (1 : Scalar)) :=
  BlindEvaluate_total_pure dlog 5 (1 : Scalar) ⟨[5], [some (1 : Scalar)]⟩ 0 0 rfl rfl

/-! ## Injectivity of scalar multiplication -/

/-- The inverse of a nonzero scalar is nonzero. -/
theorem Scalar.Invert_ne_zero (r : Scalar) (hr : r ≠ 0) : Scalar.Invert r ≠ 0 := by
  intro h0
  have h := Scalar.Invert_mul r hr
  rw [h0, zero_mul] at h
  exact scalar_one_ne_zero h.symm

/-- Two different scalars send an element other than the identity to different elements. -/
theorem smul_ne_of_scalar_ne (D : Imports) (s t : Scalar) (P : D.Element) (hP : P ≠ 0)
    (hst : s ≠ t) : s • P ≠ t • P := by
  intro h
  apply hP
  apply smul_eq_zero_of_ne_zero D (s - t) P (sub_ne_zero.2 hst)
  rw [sub_smul, h, sub_self]

/-- A nonzero scalar sends different elements to different elements. -/
theorem smul_ne_of_element_ne (D : Imports) (s : Scalar) (P Q : D.Element) (hs : s ≠ 0)
    (hPQ : P ≠ Q) : s • P ≠ s • Q := by
  intro h
  apply hPQ
  have h0 : P - Q = 0 := by
    apply smul_eq_zero_of_ne_zero D s (P - Q) hs
    rw [smul_sub, h, sub_self]
  exact sub_eq_zero.1 h0

/-! ## The claims, continued -/

/-- Claim C11, `hashToGroup` is deterministic and defined by the digest alone: the digest
of `x` has 64 bytes, `hashToGroup x` succeeds with the uniform-bytes map applied to that
digest, and inputs with equal digests (equal inputs among them) give equal results. -/
theorem hashToGroup_deterministic (D : Imports) (x y : List Byte)
    (h : D.Sum512 x = D.Sum512 y) :
    (D.Sum512 x).val.length = 64 ∧
      hashToGroup D x = Element.SetUniformBytes D (D.Sum512 x).val ∧
      hashToGroup D x = .ok (D.fromUniformBytes (D.Sum512 x)) ∧
      hashToGroup D x = hashToGroup D y := by
  refine ⟨(D.Sum512 x).len, ?_, hashToGroup_ok D x, ?_⟩
  · rw [hashToGroup_ok, elementSetUniformBytes_ok]
  · rw [hashToGroup_ok, hashToGroup_ok, h]

/-- Claim C11 applied: the inputs `[9, 4]` and `[9, 4]` of two calls. -/
theorem hashToGroup_deterministic_witness :
    (dlog.Sum512 [9, 4]).val.length = 64 ∧
      hashToGroup dlog [9, 4] = Element.SetUniformBytes dlog (dlog.Sum512 [9, 4]).val ∧
      hashToGroup dlog [9, 4] = .ok (dlog.fromUniformBytes (dlog.Sum512 [9, 4])) ∧
      hashToGroup dlog [9, 4] = hashToGroup dlog [9, 4] :=
  hashToGroup_deterministic dlog [9, 4] [9, 4] rfl

/-- Claim C12, `NewKeyPair` propagates entropy failure: it returns an error exactly when
the read of the 64 random bytes failed; the error is then the one the read returned and
the key pair pointer is nil. -/
theorem NewKeyPair_error_iff (D : Imports) (rd : ReadFull) :
    ((NewKeyPair D rd).2 ≠ none ↔ ∃ e, rd = .failed e) ∧
      ((NewKeyPair D rd).2 ≠ none → (NewKeyPair D rd).1 = none) ∧
      (∀ e, rd = .failed e → NewKeyPair D rd = (none, some e)) := by
  cases rd with
  | failed e =>
    refine ⟨by simp [NewKeyPair], by simp [NewKeyPair], ?_⟩
    intro e' he
    cases he
    rfl
  | filled b =>
    refine ⟨by simp [NewKeyPair, scalarSetUniformBytes_ok],
      by simp [NewKeyPair, scalarSetUniformBytes_ok], ?_⟩
    intro e he
    cases he

/-- Claim C13, the constant-time variant has the contract of `Blind`: on every input and
every outcome of the read of the 64 random bytes, `BlindConstantTime` returns what `Blind`
returns, the same scalar and element on success and the same error on failure. -/
theorem BlindConstantTime_eq_Blind (D : Imports) (rd : ReadFull) (x : List Byte) :
    BlindConstantTime D rd x = Blind D rd x ∧
      ((BlindConstantTime D rd x).err ≠ none ↔ (Blind D rd x).err ≠ none) := by
  have h : BlindConstantTime D rd x = Blind D rd x := by
    cases rd with
    | failed e => rfl
    | filled b =>
      rw [Blind_filled]
      simp [BlindConstantTime, hashToGroup_ok, Element.ScalarMult, ZMod.natCast_mod]
  exact ⟨h, by rw [h]⟩

/-- Claim C14, blinded elements vary with the blinding factor: when `hashToGroup x` is not
the identity, two runs of `Blind` on `x` that return different blinding scalars return
different blinded elements, and these are `r1 * P` and `r2 * P` for `P = hashToGroup x`. -/
theorem blinded_ne_of_factor_ne (D : Imports) (x : List Byte) (rd1 rd2 : ReadFull)
    (r1 r2 : Scalar) (B1 B2 : D.Element) (hP : hashToGroup D x ≠ .ok 0)
    (h1 : Blind D rd1 x = ⟨some r1, some B1, none⟩)
    (h2 : Blind D rd2 x = ⟨some r2, some B2, none⟩) (hr : r1 ≠ r2) :
    ∃ P, hashToGroup D x = .ok P ∧ B1 = Element.ScalarMult D r1 P ∧
      B2 = Element.ScalarMult D r2 P ∧ B1 ≠ B2 := by
  obtain ⟨_, -, -, hB1⟩ := Blind_success D rd1 x r1 B1 h1
  obtain ⟨_, -, -, hB2⟩ := Blind_success D rd2 x r2 B2 h2
  have hP0 : D.fromUniformBytes (D.Sum512 x) ≠ 0 := by
    intro h0
    apply hP
    rw [hashToGroup_ok, h0]
  refine ⟨_, hashToGroup_ok D x, hB1, hB2, ?_⟩
  rw [hB1, hB2]
  exact smul_ne_of_scalar_ne D r1 r2 _ hP0 hr

theorem scalar_natCast_two : ((2 : ℕ) : Scalar) = 2 := by
  norm_cast

/-- Claim C14 applied: the empty input, which the concrete instance hashes to the
generator, with random bytes encoding one and two. -/
theorem blinded_ne_of_factor_ne_witness :
    ∃ P, hashToGroup dlog [] = .ok P ∧
      ((1 : Scalar) : dlog.Element) = Element.ScalarMult dlog 1 P ∧
      ((2 : Scalar) : dlog.Element) = Element.ScalarMult dlog 2 P ∧
      ((1 : Scalar) : dlog.Element) ≠ ((2 : Scalar) : dlog.Element) :=
  blinded_ne_of_factor_ne dlog [] (.filled oneBytes) (.filled (bytes64Of 2)) 1 2
    (1 : Scalar) (2 : Scalar)
    (by
      rw [hashToGroup_ok, dlog_hash_nil]
      intro h
      exact scalar_one_ne_zero (Except.ok.inj h))
    (by
      rw [Blind_filled, leNat_oneBytes, Nat.cast_one, dlog_hash_nil]
      simp [Element.ScalarMult])
    (by
      rw [Blind_filled, leNat_bytes64Of 2 (by decide), scalar_natCast_two, dlog_hash_nil]
      simp [Element.ScalarMult])
    scalar_one_ne_two

/-- Claim C15, evaluation is injective in the key: on an element `B` other than the
identity two different keys evaluate to different elements, and for a nonzero `r` the two
unblinded elements that `Finalize` hashes have different canonical encodings. -/
theorem evaluation_injective_in_key (D : Imports) (B : D.Element) (sk1 sk2 r : Scalar)
    (hB : B ≠ 0) (hsk : sk1 ≠ sk2) (hr : r ≠ 0) :
    BlindEvaluate D sk1 B ≠ BlindEvaluate D sk2 B ∧
      Element.Bytes D (Element.ScalarMult D (Scalar.Invert r) (BlindEvaluate D sk1 B)) ≠
        Element.Bytes D (Element.ScalarMult D (Scalar.Invert r) (BlindEvaluate D sk2 B)) := by
  have hev : BlindEvaluate D sk1 B ≠ BlindEvaluate D sk2 B :=
    smul_ne_of_scalar_ne D sk1 sk2 B hB hsk
  refine ⟨hev, ?_⟩
  intro henc
  exact smul_ne_of_element_ne D (Scalar.Invert r) _ _ (Scalar.Invert_ne_zero r hr) hev
    (D.encode_injective henc)

/-- Claim C15 applied: the generator as blinded element, keys `1` and `2`, blinding
factor `2`. -/
theorem evaluation_injective_in_key_witness :
    BlindEvaluate dlog 1 dlog.basePoint ≠ BlindEvaluate dlog 2 dlog.basePoint ∧
      Element.Bytes dlog
          (Element.ScalarMult dlog (Scalar.Invert 2) (BlindEvaluate dlog 1 dlog.basePoint)) ≠
        Element.Bytes dlog
          (Element.ScalarMult dlog (Scalar.Invert 2) (BlindEvaluate dlog 2 dlog.basePoint)) :=
  evaluation_injective_in_key dlog dlog.basePoint 1 2 2 scalar_one_ne_zero
    scalar_one_ne_two scalar_two_ne_zero

/-- Claim C16, a zero blinding factor collapses the output: with the zero scalar,
`Finalize` returns for every group element the first 32 bytes of the digest of the
encoding of the identity, so any two elements, whatever key and input they come from,
give the same output. -/
theorem Finalize_zero_collapses (D : Imports) (E E' : D.Element) :
    Finalize D 0 E = (D.Sum512 (Element.Bytes D (0 : D.Element))).val.take 32 ∧
      Finalize D 0 E = Finalize D 0 E' := by
  simp only [Finalize, unblind_zero, and_self]

end Oprf
